import Mathlib

/-!
# certstream-sentinel: the scan pipeline of `scan.go`

A shallow embedding of `src/scan.go`: the dedup cache `SafeSeen`, the buffered
`tasks` channel with its non-blocking sends, the expansion call
`fetchSubdomains`, the probe `tryGetURLWithClient`, the worker loop, the
CertStream message handler and the seed loop of `main`.

Conventions of the embedding.

* Instants and durations are integers counting nanoseconds (`time.Time` read as
  nanoseconds since the Unix epoch, `time.Duration`); `Time.Unix()` is the floor
  to whole seconds.
* A Go `map[string]int64` is a list of key/value entries with pairwise distinct
  keys (`WF`); the operations do not require distinct keys, the theorems that
  need them say so.
* A run-time panic is `Except.error`; a normal return is `Except.ok`.
* The world outside the process (clock, HTTP, JSON decoding) is an `Env`.
* The worker loop is followed for one worker at a time: every method of
  `SafeSeen` runs under its lock and every channel operation is atomic, so a
  run of the pool is an interleaving of the steps defined here.
-/

namespace Scan

/-! ## Constants (scan.go 24-30) -/

def nanosPerSecond : Int := 1000000000

def numWorkers : Nat := 300

def timeout : Int := 8 * nanosPerSecond

def taskBufferFactor : Nat := 50

def seenPurgeInterval : Int := 2 * (3600 * nanosPerSecond)

def seenExpiry : Int := 24 * (3600 * nanosPerSecond)

/-! ## time.Time and time.Duration -/

/-- The method `Time.Unix()`: whole seconds since the epoch (floor). -/
def unix (t : Int) : Int := t / nanosPerSecond

/-- The least `int64`, the one duration whose negation wraps to itself. -/
def minInt64 : Int := -9223372036854775808

/-- Unary minus on a `time.Duration` (an `int64`). -/
def negDuration (d : Int) : Int := if d = minInt64 then minInt64 else -d

/-- The method `Time.Add(d)`. -/
def timeAdd (t d : Int) : Int := t + d

/-! ## Go maps `map[string]int64` -/

/-- The expression `m[k]` in its two-value form: the value, if the key is present. -/
def mapLookup (m : List (String × Int)) (k : String) : Option Int :=
  match m with
  | [] => none
  | (k', v) :: rest => if k' = k then some v else mapLookup rest k

/-- The builtin `delete(m, k)`. -/
def mapDelete (m : List (String × Int)) (k : String) : List (String × Int) :=
  m.filter (fun e => decide (e.1 ≠ k))

/-- The assignment `m[k] = v`. -/
def mapStore (m : List (String × Int)) (k : String) (v : Int) : List (String × Int) :=
  (k, v) :: mapDelete m k

/-- The keys of a map are pairwise distinct. -/
def WF (m : List (String × Int)) : Prop := (m.map Prod.fst).Nodup

instance (m : List (String × Int)) : Decidable (WF m) := by
  unfold WF; infer_instance

/-! ## SafeSeen (scan.go 46-81) -/

/-- The dedup cache: domain to the Unix second of its admission. The mutex is
not modelled: each method below is one atomic step. -/
structure SafeSeen where
  data : List (String × Int)
deriving DecidableEq

def NewSafeSeen : SafeSeen := ⟨[]⟩

/-- The method `SafeSeen.LoadOrStore(key)`, with `now` the value of `time.Now()` it reads
(scan.go 54-63). Returns the cache afterwards and `exists`. -/
def SafeSeen.LoadOrStore (s : SafeSeen) (key : String) (now : Int) : SafeSeen × Bool :=
  match mapLookup s.data key with
  | some _ => (s, true)
  | none => (⟨mapStore s.data key (unix now)⟩, false)

/-- The method `SafeSeen.PurgeOlder(d)`, with `now` the value of `time.Now()` it reads
(scan.go 65-74): the range loop visits the entries and deletes the keys whose timestamp is
at most the threshold. -/
def SafeSeen.PurgeOlder (s : SafeSeen) (now : Int) (d : Int) : SafeSeen :=
  let threshold := unix (timeAdd now (negDuration d))
  ⟨s.data.foldl (fun acc e => if e.2 ≤ threshold then mapDelete acc e.1 else acc) s.data⟩

/-- The method `SafeSeen.Len()`. -/
def SafeSeen.Len (s : SafeSeen) : Nat := s.data.length

/-- The age of an entry admitted at Unix second `ts`, at instant `now`, in nanoseconds. -/
def age (now ts : Int) : Int := now - ts * nanosPerSecond

/-! ## The buffered channel `tasks` (scan.go 179) -/

/-- A buffered `chan string`: the buffered values oldest first, the capacity given to
`make`, and whether `close` was called. -/
structure Chan where
  buf : List String
  cap : Nat
  closed : Bool
deriving DecidableEq

/-- The call `make(chan string, n)`. -/
def makeChan (n : Nat) : Chan := ⟨[], n, false⟩

/-- The capacity of `tasks`: numWorkers * taskBufferFactor = 15000. -/
def tasksCap : Nat := numWorkers * taskBufferFactor

/-- The statement `select { case c <- v: default: }` (scan.go 225-229, 308-312, 349-352).
A send on a closed channel panics, also inside a `select` with a `default`; otherwise the
value is buffered when there is room (`true`) and the default branch runs when there is
none (`false`). -/
def trySend (c : Chan) (v : String) : Except String (Chan × Bool) :=
  if c.closed then .error "send on closed channel"
  else if c.buf.length < c.cap then .ok ({ c with buf := c.buf ++ [v] }, true)
  else .ok (c, false)

/-- The call `close(c)` (scan.go 325). -/
def closeChan (c : Chan) : Except String Chan :=
  if c.closed then .error "close of closed channel" else .ok { c with closed := true }

/-- What a receive of `for domain := range c` finds. -/
inductive Recv where
  | item (v : String) (rest : Chan)
  | done
  | block

/-- One receive of `for domain := range tasks` (scan.go 207): the oldest buffered value if
there is one, also after `close`; the end of the loop on a closed and empty channel; and a
blocked worker on an open and empty one. -/
def recv (c : Chan) : Recv :=
  match c.buf with
  | v :: rest => .item v { c with buf := rest }
  | [] => if c.closed then .done else .block

/-! ## The probe table (scan.go 32-44) -/

structure VulnCheck where
  Path : String
  Keyword : String
  OutputDir : String
  DisplayName : String
  ContentType : String

def checks : List VulnCheck :=
  [ ⟨"/.env", "APP_KEY", "vulnerable_env", ".env", ""⟩,
    ⟨"/.git/config", "[core]", "vulnerable_git", ".git", ""⟩,
    ⟨"/phpinfo.php", "PHP Version", "vulnerable_phpinfo", "phpinfo.php", "text/html"⟩ ]

/-! ## The world outside the process -/

/-- What building a GET request for a URL and handing it to `client.Do` gives:
`http.NewRequest` (or `NewRequestWithContext`) returned an error and nothing was sent;
`client.Do` returned an error or a nil response; or a response with its status code, its
`Content-Type` header, the bytes `io.ReadAll` read from its body and whether `io.ReadAll`
returned an error. -/
inductive Outcome where
  | buildErr
  | transportErr
  | resp (status : Int) (contentType : String) (body : String) (readErr : Bool)

/-- A value decoded by `encoding/json` into an `interface{}`. -/
inductive JsonVal where
  | null
  | bool (b : Bool)
  | num (literal : String)
  | str (s : String)
  | arr (items : List JsonVal)
  | obj (fields : List (String × JsonVal))

/-- The environment of a run: `clock n` is what the n-th reading of `time.Now()` returns,
`doReq url` what a GET of `url` gives, `decodeDomains raw` the field `result.domains` that
`json.Unmarshal` decodes from the expansion provider's body (`none`: it returned an
error), `parseJSON msg` the JSON value of a CertStream message (`none`: not valid JSON). -/
structure Env where
  clock : Nat → Int
  doReq : String → Outcome
  decodeDomains : String → Option (List String)
  parseJSON : String → Option JsonVal

/-- The function `strings.Contains(s, substr)`. -/
def stringsContains (s substr : String) : Bool :=
  s.toList.tails.any (fun t => substr.toList.isPrefixOf t)

/-! ## fetchSubdomains (scan.go 83-113) -/

/-- The function `fetchSubdomains(domain, client, subCount)`: the subdomains returned and the
new value of `*subCount`. The error of `http.NewRequest` is discarded at line 85, so a URL
it rejects leaves `req` nil and line 86 panics. -/
def fetchSubdomains (env : Env) (domain : String) (subCount : Int) :
    Except String (List String × Int) :=
  let url := "https://api.example.com/?domain=" ++ domain
  match env.doReq url with
  | .buildErr => .error "invalid memory address or nil pointer dereference"
  | .transportErr => .ok ([], subCount)
  | .resp status _ raw readErr =>
    if status ≠ 200 then .ok ([], subCount)
    else if readErr then .ok ([], subCount)
    else
      match env.decodeDomains raw with
      | none => .ok ([], subCount)
      | some domains =>
        if domains.length > 0 then .ok (domains, subCount + (domains.length : Int))
        else .ok (domains, subCount)

/-! ## tryGetURLWithClient (scan.go 115-144) -/

/-- One turn of the loop of `tryGetURLWithClient` for the URL `url` (scan.go 117-141):
whether it reaches `return url`. Every other path is a `continue`. -/
def attempt (env : Env) (check : VulnCheck) (url : String) : Bool :=
  match env.doReq url with
  | .buildErr => false
  | .transportErr => false
  | .resp status contentType body _ =>
    if status ≠ 200 then false
    else if check.ContentType ≠ "" ∧ ¬ stringsContains contentType check.ContentType then false
    else if stringsContains body check.Keyword then true
    else false

/-- The requests that one turn of the loop hands to `client.Do` (scan.go 119-125): none when
`http.NewRequestWithContext` returned an error, since the turn then does `continue` before
line 125, and the one for `url` otherwise. -/
def requested (env : Env) (url : String) : List String :=
  match env.doReq url with
  | .buildErr => []
  | .transportErr => [url]
  | .resp _ _ _ _ => [url]

/-- The loop of `tryGetURLWithClient` over the schemes still to try; `sent` lists the URLs
already handed to `client.Do`. Returns the result and the URLs handed to `client.Do`, in
order. -/
def tryGetURLLoop (env : Env) (domain : String) (check : VulnCheck) :
    List String → List String → String × List String
  | [], sent => ("", sent)
  | scheme :: rest, sent =>
    let url := scheme ++ domain ++ check.Path
    if attempt env check url then (url, sent ++ requested env url)
    else tryGetURLLoop env domain check rest (sent ++ requested env url)

/-- The function `tryGetURLWithClient(domain, check, client)`: the string it returns and the
URLs of the requests it handed to `client.Do`, in order. -/
def tryGetURLWithClient (env : Env) (domain : String) (check : VulnCheck) :
    String × List String :=
  tryGetURLLoop env domain check ["https://", "http://"] []

/-! ## The state of `main` -/

/-- The variables of `main` shared by its goroutines: the dedup cache, the task channel,
the two counters, the per-probe counters `counts` keyed by `check.Path`, the lines written
to the domain log, the lines written to the probe sinks (with the key of the sink), and the
number of readings of `time.Now()` made so far. -/
structure State where
  seen : SafeSeen
  tasks : Chan
  scannedCount : Int
  subCount : Int
  counts : List (String × Int)
  domainLines : List String
  vulnLines : List (String × String)
  tick : Nat
deriving DecidableEq

/-- The state of `main` once every sink is open and the channel is made (scan.go 151-182),
before any goroutine has run. -/
def initState : State :=
  { seen := NewSafeSeen
    tasks := makeChan tasksCap
    scannedCount := 0
    subCount := 0
    counts := checks.map (fun c => (c.Path, 0))
    domainLines := []
    vulnLines := []
    tick := 0 }

/-- The admission path, written three times in `main` (scan.go 222-229, 305-312, 348-352):
`LoadOrStore`, and for a domain that was not there the non-blocking send. -/
def admitDomain (env : Env) (st : State) (d : String) : Except String State :=
  let r := st.seen.LoadOrStore d (env.clock st.tick)
  let st1 := { st with seen := r.1, tick := st.tick + 1 }
  if r.2 then .ok st1
  else
    match trySend st1.tasks d with
    | .error e => .error e
    | .ok (c, _) => .ok { st1 with tasks := c }

/-- The loops `for _, sd := range subs` (scan.go 221-230) and `for _, d := range seed`
(scan.go 347-354). -/
def admitAll (env : Env) : State → List String → Except String State
  | st, [] => .ok st
  | st, d :: rest =>
    match admitDomain env st d with
    | .error e => .error e
    | .ok st1 => admitAll env st1 rest

/-- The seed loop at the end of `main` (scan.go 346-354), for a given seed list. -/
def seedAdmit (env : Env) (st : State) (seed : List String) : Except String State :=
  admitAll env st seed

/-- The seed of the source. -/
def seed : List String := ["example.com"]

/-! ## The worker loop (scan.go 203-252) -/

/-- The loop `for _, check := range checks` of a worker (scan.go 234-244). A probe sink
that could not be opened has no counter, and `atomic.AddInt64` on it panics. -/
def runChecks (env : Env) (domain : String) : State → List VulnCheck → Except String State
  | st, [] => .ok st
  | st, check :: rest =>
    let url := (tryGetURLWithClient env domain check).1
    if url ≠ "" then
      match mapLookup st.counts check.Path with
      | none => .error "invalid memory address or nil pointer dereference"
      | some n =>
        runChecks env domain
          { st with counts := mapStore st.counts check.Path (n + 1)
                    vulnLines := st.vulnLines ++ [(check.Path, url ++ "\n")] } rest
    else runChecks env domain st rest

/-- The body of the worker loop for one dequeued domain (scan.go 208-249). -/
def processDomain (env : Env) (st : State) (domain : String) : Except String State :=
  let st1 := { st with domainLines := st.domainLines ++ [domain ++ "\n"] }
  match fetchSubdomains env domain st1.subCount with
  | .error e => .error e
  | .ok (subs, sc) =>
    match admitAll env { st1 with subCount := sc } subs with
    | .error e => .error e
    | .ok st2 =>
      match runChecks env domain st2 checks with
      | .error e => .error e
      | .ok st3 => .ok { st3 with scannedCount := st3.scannedCount + 1 }

/-- How a run of the worker loop stops. -/
inductive LoopEnd where
  | exited
  | blocked
  | outOfFuel
deriving DecidableEq

/-- The loop `for domain := range tasks` of a worker (scan.go 207-250), for at most `fuel`
receives: it ends (`exited`) on a closed and empty channel, waits (`blocked`) on an open and
empty one, and a panic ends the process. -/
def workerLoop (env : Env) : Nat → State → Except String (State × LoopEnd)
  | 0, st => .ok (st, .outOfFuel)
  | fuel + 1, st =>
    match recv st.tasks with
    | .done => .ok (st, .exited)
    | .block => .ok (st, .blocked)
    | .item domain rest =>
      match processDomain env { st with tasks := rest } domain with
      | .error e => .error e
      | .ok st1 => workerLoop env fuel st1

/-- The first steps of the shutdown goroutine (scan.go 324-325): the channel is closed. -/
def shutdown (st : State) : Except String State :=
  match closeChan st.tasks with
  | .error e => .error e
  | .ok c => .ok { st with tasks := c }

/-! ## The CertStream message handler (scan.go 287-314) -/

/-- The index expression `m[k]` on a `map[string]interface{}`. -/
def fieldOf (m : List (String × JsonVal)) (k : String) : Option JsonVal :=
  match m with
  | [] => none
  | (k', v) :: rest => if k' = k then some v else fieldOf rest k

/-- The call `json.Unmarshal(msg, &data)` with `data` a `map[string]interface{}`
(scan.go 287-288): `none` when it returns an error (invalid JSON, or a JSON value that is
neither an object nor null); JSON null leaves the map nil, which reads as empty. -/
def unmarshalMap (env : Env) (msg : String) : Option (List (String × JsonVal)) :=
  match env.parseJSON msg with
  | none => none
  | some (.obj fields) => some fields
  | some .null => some []
  | some _ => none

/-- The loop `for _, dd := range domains` of the handler (scan.go 303-314). -/
def admitValues (env : Env) : State → List JsonVal → Except String State
  | st, [] => .ok st
  | st, .str domain :: rest =>
    match admitDomain env st domain with
    | .error e => .error e
    | .ok st1 => admitValues env st1 rest
  | st, _ :: rest => admitValues env st rest

/-- The handling of one message read from the CertStream connection (scan.go 287-314). -/
def handleMessage (env : Env) (st : State) (msg : String) : Except String State :=
  match unmarshalMap env msg with
  | none => .ok st
  | some data =>
    match fieldOf data "message_type" with
    | some (.str t) =>
      if t ≠ "certificate_update" then .ok st
      else
        match fieldOf data "data" with
        | some (.obj d) =>
          match fieldOf d "leaf_cert" with
          | some (.obj leaf) =>
            match fieldOf leaf "all_domains" with
            | some (.arr domains) => admitValues env st domains
            | _ => .ok st
          | _ => .ok st
        | _ => .ok st
    | _ => .ok st

/-- The string entries of a decoded JSON array, in order. -/
def stringEntries : List JsonVal → List String
  | [] => []
  | .str s :: rest => s :: stringEntries rest
  | _ :: rest => stringEntries rest

/-- The expected shape of a domain-discovery event: a JSON object whose `message_type` is the
string `certificate_update` and whose `data` is an object with an object `leaf_cert` that has
an array `all_domains`; `domains` is that array. -/
def DiscoveryShape (env : Env) (msg : String) (domains : List JsonVal) : Prop :=
  ∃ data d leaf, env.parseJSON msg = some (.obj data) ∧
    fieldOf data "message_type" = some (.str "certificate_update") ∧
    fieldOf data "data" = some (.obj d) ∧
    fieldOf d "leaf_cert" = some (.obj leaf) ∧
    fieldOf leaf "all_domains" = some (.arr domains)

/-! ## Runs -/

/-- The pipeline from its initial state: the seed loop, then the worker loop for at most
`fuel` receives. (In `main` the workers start first and wait on the empty channel until the
seed loop has sent.) -/
def runPipeline (env : Env) (seedList : List String) (fuel : Nat) :
    Except String (State × LoopEnd) :=
  match seedAdmit env initState seedList with
  | .error e => .error e
  | .ok st => workerLoop env fuel st

/-- The pipeline shut down with the seed still queued: the seed loop, the `close(tasks)` of
the shutdown goroutine, then the worker loop draining the channel. -/
def runDrain (env : Env) (seedList : List String) (fuel : Nat) :
    Except String (State × LoopEnd) :=
  match seedAdmit env initState seedList with
  | .error e => .error e
  | .ok st =>
    match shutdown st with
    | .error e => .error e
    | .ok st1 => workerLoop env fuel st1

/-- The panic message of a run that panicked. -/
def panicOf {α : Type} : Except String α → Option String
  | .error e => some e
  | .ok _ => none

/-- The attempt for `url` matches, read off the answer of the outside world: a response came
back with status 200, its Content-Type contains the substring the probe requires, if it
requires one, and its body contains the keyword of the probe. -/
def Matches (env : Env) (check : VulnCheck) (url : String) : Prop :=
  ∃ contentType body readErr, env.doReq url = .resp 200 contentType body readErr ∧
    (check.ContentType ≠ "" → stringsContains contentType check.ContentType = true) ∧
    stringsContains body check.Keyword = true

/-- The successful class of HTTP status codes, 2xx: a success status in the words of the
specification. -/
def isSuccessStatus (status : Int) : Bool := decide (200 ≤ status ∧ status < 300)

/-! ## Example environments -/

/-- An expansion provider that answers two subdomains for `a.example` and none for any other
domain; every probed URL answers 200 with a body that holds no keyword. -/
def envTwoSubs : Env :=
  { clock := fun n => 1000000000 * (1000 + (n : Int))
    doReq := fun url =>
      if url = "https://api.example.com/?domain=a.example" then
        .resp 200 "application/json" "two" false
      else if "https://api.example.com/?domain=".toList.isPrefixOf url.toList then
        .resp 200 "application/json" "empty" false
      else .resp 200 "text/html" "hello" false
    decodeDomains := fun raw =>
      if raw = "two" then some ["s1.a.example", "s2.a.example"] else some []
    parseJSON := fun _ => none }

/-- An expansion provider that answers one subdomain for `d1.example` and fails for any
other domain, probes that fail, and a feed whose message `event` is a certificate update
for `new.example`. -/
def envOneSub : Env :=
  { clock := fun n => 1000000000 * (1000 + (n : Int))
    doReq := fun url =>
      if url = "https://api.example.com/?domain=d1.example" then
        .resp 200 "application/json" "one" false
      else .transportErr
    decodeDomains := fun raw => if raw = "one" then some ["s.d1.example"] else none
    parseJSON := fun msg =>
      if msg = "event" then
        some (.obj [("message_type", .str "certificate_update"),
          ("data", .obj [("leaf_cert", .obj [("all_domains", .arr [.str "new.example"])])])])
      else none }

/-- A server that answers 203 (a 2xx status) with the keyword of the first probe in the
body. -/
def envNonAuthoritative : Env :=
  { clock := fun _ => 0
    doReq := fun _ => .resp 203 "text/plain" "APP_KEY=secret" false
    decodeDomains := fun _ => none
    parseJSON := fun _ => none }

/-- An `http` package that cannot build a request for the two probe URLs of the domain
`a b` with the path `/.env` (a space in the host name), and a client that fails for
every other URL. -/
def envSpaceInHost : Env :=
  { clock := fun _ => 0
    doReq := fun url =>
      if url = "https://a b/.env" ∨ url = "http://a b/.env" then .buildErr
      else .transportErr
    decodeDomains := fun _ => none
    parseJSON := fun _ => none }

/-- The five domains queued when the termination signal arrives. -/
def fivePending : List String :=
  ["d1.example", "d2.example", "d3.example", "d4.example", "d5.example"]

/-- A cache with entries admitted at seconds 80, 100 and 105. -/
def mixedAges : SafeSeen :=
  ⟨[("old.example", 80), ("edge.example", 100), ("new.example", 105)]⟩

theorem mapLookup_mapDelete (m : List (String × Int)) (k k' : String) :
    mapLookup (mapDelete m k) k' = if k = k' then none else mapLookup m k' := by
  induction m with
  | nil => simp [mapDelete, mapLookup]
  | cons e rest ih =>
    obtain ⟨a, v⟩ := e
    have ih' : mapLookup (List.filter (fun e => decide (e.1 ≠ k)) rest) k' =
        if k = k' then none else mapLookup rest k' := ih
    show mapLookup (List.filter (fun e => decide (e.1 ≠ k)) ((a, v) :: rest)) k' = _
    rw [List.filter_cons]
    by_cases hak : a = k
    · have hd : decide ((a, v).1 ≠ k) = false := by simp [hak]
      rw [hd, if_neg (by simp), ih']
      by_cases hk : k = k'
      · simp [hk]
      · have hne : a ≠ k' := hak ▸ hk
        simp [mapLookup, hk, hne]
    · have hd : decide ((a, v).1 ≠ k) = true := by simp [hak]
      rw [hd, if_pos rfl]
      simp only [mapLookup]
      rw [ih']
      by_cases hk : k = k'
      · have hne : a ≠ k' := hk ▸ hak
        simp [hk, hne]
      · simp [hk]

theorem mapLookup_mapStore (m : List (String × Int)) (k k' : String) (v : Int) :
    mapLookup (mapStore m k v) k' = if k = k' then some v else mapLookup m k' := by
  unfold mapStore
  by_cases hk : k = k'
  · simp [mapLookup, hk]
  · simp [mapLookup, hk, mapLookup_mapDelete]

theorem mem_of_mapLookup (m : List (String × Int)) (k : String) (v : Int)
    (h : mapLookup m k = some v) : (k, v) ∈ m := by
  induction m with
  | nil => simp [mapLookup] at h
  | cons e rest ih =>
    obtain ⟨a, w⟩ := e
    by_cases hak : a = k
    · subst hak
      simp [mapLookup] at h
      simp [h]
    · simp [mapLookup, hak] at h
      exact List.mem_cons_of_mem _ (ih h)

theorem mapLookup_of_mem (m : List (String × Int)) (hwf : WF m) (k : String) (v : Int)
    (h : (k, v) ∈ m) : mapLookup m k = some v := by
  induction m with
  | nil => simp at h
  | cons e rest ih =>
    obtain ⟨a, w⟩ := e
    unfold WF at hwf ih
    simp only [List.map_cons, List.nodup_cons] at hwf
    rcases List.mem_cons.mp h with heq | hmem
    · cases heq
      simp [mapLookup]
    · have hne : a ≠ k := by
        intro hak
        subst hak
        exact hwf.1 (List.mem_map.mpr ⟨(a, v), hmem, rfl⟩)
      simp only [mapLookup, hne, if_false]
      exact ih hwf.2 hmem

/-- The range loop of `PurgeOlder`, started from any map `acc`, over the entries `l`. -/
theorem mapLookup_purgeLoop (th : Int) (l acc : List (String × Int)) (k : String) :
    mapLookup (l.foldl (fun acc e => if e.2 ≤ th then mapDelete acc e.1 else acc) acc) k =
      if (∃ e ∈ l, e.1 = k ∧ e.2 ≤ th) then none else mapLookup acc k := by
  induction l generalizing acc with
  | nil => simp
  | cons e rest ih =>
    simp only [List.foldl_cons]
    rw [ih]
    by_cases hrest : ∃ e' ∈ rest, e'.1 = k ∧ e'.2 ≤ th
    · have : ∃ e' ∈ e :: rest, e'.1 = k ∧ e'.2 ≤ th := by
        obtain ⟨e', hm, hp⟩ := hrest
        exact ⟨e', List.mem_cons_of_mem _ hm, hp⟩
      simp only [hrest, this, if_true]
    · simp only [hrest, if_false]
      by_cases he : e.2 ≤ th
      · simp only [he, if_true, mapLookup_mapDelete]
        by_cases hk : e.1 = k
        · have : ∃ e' ∈ e :: rest, e'.1 = k ∧ e'.2 ≤ th := ⟨e, List.mem_cons_self _ _, hk, he⟩
          simp only [hk, this, if_true]
        · have : ¬ ∃ e' ∈ e :: rest, e'.1 = k ∧ e'.2 ≤ th := by
            rintro ⟨e', hm, hp⟩
            rcases List.mem_cons.mp hm with h1 | h1
            · subst h1; exact hk hp.1
            · exact hrest ⟨e', h1, hp⟩
          simp only [hk, this, if_false]
      · have : ¬ ∃ e' ∈ e :: rest, e'.1 = k ∧ e'.2 ≤ th := by
          rintro ⟨e', hm, hp⟩
          rcases List.mem_cons.mp hm with h1 | h1
          · subst h1; exact he hp.2
          · exact hrest ⟨e', h1, hp⟩
        simp only [he, this, if_false]

/-- The threshold test of `PurgeOlder` in terms of the age of the entry. -/
theorem le_threshold_iff (now d ts : Int) (hd : d ≠ minInt64) :
    ts ≤ unix (timeAdd now (negDuration d)) ↔ d ≤ age now ts := by
  unfold unix timeAdd negDuration age
  rw [if_neg hd, Int.le_ediv_iff_mul_le (by decide : (0 : Int) < nanosPerSecond)]
  constructor <;> intro h <;> linarith

theorem WF_mapDelete (m : List (String × Int)) (k : String) (h : WF m) : WF (mapDelete m k) := by
  unfold WF mapDelete at *
  exact (List.filter_sublist m).map Prod.fst |>.nodup h

theorem not_mem_keys_of_mapLookup_none (m : List (String × Int)) (k : String)
    (h : mapLookup m k = none) : k ∉ m.map Prod.fst := by
  induction m with
  | nil => simp
  | cons e rest ih =>
    obtain ⟨a, v⟩ := e
    by_cases hak : a = k
    · simp [mapLookup, hak] at h
    · simp only [mapLookup, hak, if_false] at h
      simp only [List.map_cons, List.mem_cons, not_or]
      exact ⟨fun hka => hak hka.symm, ih h⟩

/-- The method `LoadOrStore` keeps the keys of the cache distinct. -/
theorem WF_LoadOrStore (s : SafeSeen) (key : String) (now : Int) (h : WF s.data) :
    WF (s.LoadOrStore key now).1.data := by
  unfold SafeSeen.LoadOrStore
  cases hl : mapLookup s.data key with
  | some v => simpa using h
  | none =>
    show WF (mapStore s.data key (unix now))
    unfold mapStore WF
    simp only [List.map_cons, List.nodup_cons]
    refine ⟨?_, WF_mapDelete _ _ h⟩
    apply not_mem_keys_of_mapLookup_none
    simp [mapLookup_mapDelete]

/-- The method `PurgeOlder` keeps the keys of the cache distinct. -/
theorem WF_PurgeOlder (s : SafeSeen) (now d : Int) (h : WF s.data) :
    WF (s.PurgeOlder now d).data := by
  unfold SafeSeen.PurgeOlder
  simp only
  generalize unix (timeAdd now (negDuration d)) = th
  have key : ∀ (l acc : List (String × Int)), WF acc →
      WF (l.foldl (fun acc e => if e.2 ≤ th then mapDelete acc e.1 else acc) acc) := by
    intro l
    induction l with
    | nil => intro acc hacc; simpa using hacc
    | cons e rest ih =>
      intro acc hacc
      simp only [List.foldl_cons]
      apply ih
      split
      · exact WF_mapDelete _ _ hacc
      · exact hacc
  exact key _ _ h

/-! ## The dedup cache -/

/-- C1: for every cache, every domain `d` not in it and every two instants `t1`, `t2`, the
first of two consecutive calls `LoadOrStore(d)` returns false and the second returns true;
the entry keeps the timestamp of the first call. -/
theorem LoadOrStore_twice (s : SafeSeen) (d : String) (t1 t2 : Int)
    (habs : mapLookup s.data d = none) :
    (s.LoadOrStore d t1).2 = false ∧
    ((s.LoadOrStore d t1).1.LoadOrStore d t2).2 = true ∧
    mapLookup ((s.LoadOrStore d t1).1.LoadOrStore d t2).1.data d = some (unix t1) := by
  have h1 : s.LoadOrStore d t1 = (⟨mapStore s.data d (unix t1)⟩, false) := by
    unfold SafeSeen.LoadOrStore
    rw [habs]
  have hl : mapLookup (mapStore s.data d (unix t1)) d = some (unix t1) := by
    rw [mapLookup_mapStore]; simp
  have h2 : (⟨mapStore s.data d (unix t1)⟩ : SafeSeen).LoadOrStore d t2 =
      (⟨mapStore s.data d (unix t1)⟩, true) := by
    unfold SafeSeen.LoadOrStore
    simp only [hl]
  rw [h1]
  simp only [h2, hl, and_self]

theorem LoadOrStore_twice_witness :
    mapLookup mixedAges.data "a.example" = none ∧
    (mixedAges.LoadOrStore "a.example" 107000000000).2 = false ∧
    ((mixedAges.LoadOrStore "a.example" 107000000000).1.LoadOrStore
      "a.example" 109000000000).2 = true ∧
    mapLookup ((mixedAges.LoadOrStore "a.example" 107000000000).1.LoadOrStore
      "a.example" 109000000000).1.data "a.example" = some (unix 107000000000) :=
  ⟨by decide, LoadOrStore_twice mixedAges "a.example" 107000000000 109000000000 (by decide)⟩

/-- C2, as the code has it: for every cache with distinct keys, every instant `now` and
every threshold `d` other than the least `int64`, after `PurgeOlder(d)` an entry whose age
is at least `d` is absent, an entry whose age is less than `d` is present with its
timestamp unchanged, and no key is added. -/
theorem PurgeOlder_lookup (s : SafeSeen) (now d : Int) (hwf : WF s.data) (hd : d ≠ minInt64)
    (k : String) :
    mapLookup (s.PurgeOlder now d).data k =
      match mapLookup s.data k with
      | none => none
      | some ts => if d ≤ age now ts then none else some ts := by
  unfold SafeSeen.PurgeOlder
  simp only
  rw [mapLookup_purgeLoop]
  cases hl : mapLookup s.data k with
  | none => simp
  | some ts =>
    simp only
    by_cases hage : d ≤ age now ts
    · have hth := (le_threshold_iff now d ts hd).mpr hage
      have : ∃ e ∈ s.data, e.1 = k ∧ e.2 ≤ unix (timeAdd now (negDuration d)) :=
        ⟨(k, ts), mem_of_mapLookup _ _ _ hl, rfl, hth⟩
      rw [if_pos this, if_pos hage]
    · have : ¬ ∃ e ∈ s.data, e.1 = k ∧ e.2 ≤ unix (timeAdd now (negDuration d)) := by
        rintro ⟨⟨a, v⟩, hm, ha, hv⟩
        simp only at ha hv
        subst ha
        have hv' := mapLookup_of_mem _ hwf _ _ hm
        rw [hl] at hv'
        cases hv'
        exact hage ((le_threshold_iff now d ts hd).mp hv)
      rw [if_neg this, if_neg hage]

theorem PurgeOlder_lookup_witness :
    WF mixedAges.data ∧ (10000000000 : Int) ≠ minInt64 ∧
    mapLookup (mixedAges.PurgeOlder 110000000000 10000000000).data "old.example" = none ∧
    mapLookup (mixedAges.PurgeOlder 110000000000 10000000000).data "new.example" = some 105 :=
  ⟨by decide, by decide,
   (PurgeOlder_lookup mixedAges 110000000000 10000000000 (by decide) (by decide)
      "old.example").trans (by decide),
   (PurgeOlder_lookup mixedAges 110000000000 10000000000 (by decide) (by decide)
      "new.example").trans (by decide)⟩

/-- C2 fails as stated: at second 110 the entry admitted at second 100 has an age equal to a
threshold of ten seconds, so an age that is not greater than the threshold, and
`PurgeOlder` removes it. -/
theorem PurgeOlder_removes_age_eq_ttl :
    mapLookup mixedAges.data "edge.example" = some 100 ∧
    age 110000000000 100 ≤ 10000000000 ∧
    mapLookup (mixedAges.PurgeOlder 110000000000 10000000000).data "edge.example" = none := by
  decide

/-! ## The task queue -/

/-- C3: on an open channel the non-blocking send fails and changes nothing when the buffer
holds `cap` items, and succeeds, appends at the tail and makes the buffer one longer when it
holds fewer; so a buffer within its capacity stays within it. -/
theorem trySend_open (c : Chan) (d : String) (hopen : c.closed = false) :
    (c.buf.length = c.cap → trySend c d = .ok (c, false)) ∧
    (c.buf.length < c.cap →
      trySend c d = .ok ({ c with buf := c.buf ++ [d] }, true) ∧
      (c.buf ++ [d]).length = c.buf.length + 1) ∧
    (c.buf.length ≤ c.cap → ∀ c1 b, trySend c d = .ok (c1, b) →
      c1.buf.length ≤ c1.cap ∧ c1.cap = c.cap ∧ c1.closed = false) := by
  refine ⟨?_, ?_, ?_⟩
  · intro h
    simp [trySend, hopen, h]
  · intro h
    simp [trySend, hopen, h]
  · intro h c1 b hs
    unfold trySend at hs
    rw [hopen] at hs
    simp only [Bool.false_eq_true, if_false] at hs
    split at hs
    · rename_i hlt
      cases hs
      refine ⟨?_, rfl, rfl⟩
      simp only [List.length_append, List.length_singleton]
      exact hlt
    · cases hs
      exact ⟨h, rfl, hopen⟩

theorem trySend_open_witness :
    trySend ⟨["a", "b"], 2, false⟩ "c" = .ok (⟨["a", "b"], 2, false⟩, false) ∧
    trySend ⟨["a"], 2, false⟩ "c" = .ok (⟨["a", "c"], 2, false⟩, true) :=
  ⟨(trySend_open ⟨["a", "b"], 2, false⟩ "c" rfl).1 rfl,
   ((trySend_open ⟨["a"], 2, false⟩ "c" rfl).2.1 (by decide)).1⟩

theorem attempt_true_iff_matches (env : Env) (check : VulnCheck) (url : String) :
    attempt env check url = true ↔ Matches env check url := by
  unfold Matches
  unfold attempt
  cases hr : env.doReq url with
  | buildErr => simp
  | transportErr => simp
  | resp status contentType body readErr =>
    simp only
    by_cases hs : status = 200
    · subst hs
      rw [if_neg (fun h : (200 : Int) ≠ 200 => h rfl)]
      by_cases hct : check.ContentType ≠ "" ∧ ¬ stringsContains contentType check.ContentType
      · rw [if_pos hct]
        constructor
        · intro h
          cases h
        · rintro ⟨ct, b, re, heq, h1, _⟩
          cases heq
          exact absurd (h1 hct.1) hct.2
      · rw [if_neg hct]
        by_cases hb : stringsContains body check.Keyword = true
        · rw [if_pos hb]
          refine ⟨fun _ => ⟨contentType, body, readErr, rfl, ?_, hb⟩, fun _ => rfl⟩
          intro hne
          by_contra hc
          exact hct ⟨hne, hc⟩
        · rw [if_neg hb]
          constructor
          · intro h
            cases h
          · rintro ⟨ct, b, re, heq, _, h2⟩
            cases heq
            exact absurd h2 hb
    · rw [if_pos hs]
      constructor
      · intro h
        cases h
      · rintro ⟨ct, b, re, heq, _⟩
        cases heq
        exact absurd rfl hs

theorem requested_of_matches (env : Env) (check : VulnCheck) (url : String)
    (h : Matches env check url) : requested env url = [url] := by
  obtain ⟨ct, body, re, hr, _⟩ := h
  simp only [requested, hr]

theorem requested_of_built (env : Env) (url : String) (h : env.doReq url ≠ .buildErr) :
    requested env url = [url] := by
  unfold requested
  cases hr : env.doReq url with
  | buildErr => exact absurd hr h
  | transportErr => rfl
  | resp status ct body re => rfl

theorem requested_of_buildErr (env : Env) (url : String) (h : env.doReq url = .buildErr) :
    requested env url = [] := by
  simp only [requested, h]

/-- C6, as the code has it: `tryGetURLWithClient` hands a request to the client only for a
URL whose request could be built, https before http. When the https request can be built
it is the first request. When the https attempt matches, the result is the https URL and
the https request is the only one. When it does not and the http attempt matches, the
result is the http URL, after exactly the two requests https then http if the https
request could be built, and after the http request alone if it could not. When neither
matches, the result is the empty string and the requests are those of the two URLs that
could be built. -/
theorem tryGetURLWithClient_requests (env : Env) (domain : String) (check : VulnCheck) :
    (env.doReq ("https://" ++ domain ++ check.Path) ≠ .buildErr →
      ∃ rest, (tryGetURLWithClient env domain check).2 =
        ("https://" ++ domain ++ check.Path) :: rest) ∧
    (Matches env check ("https://" ++ domain ++ check.Path) →
      tryGetURLWithClient env domain check =
        ("https://" ++ domain ++ check.Path, ["https://" ++ domain ++ check.Path])) ∧
    (¬ Matches env check ("https://" ++ domain ++ check.Path) →
      Matches env check ("http://" ++ domain ++ check.Path) →
      (env.doReq ("https://" ++ domain ++ check.Path) ≠ .buildErr →
        tryGetURLWithClient env domain check =
          ("http://" ++ domain ++ check.Path,
            ["https://" ++ domain ++ check.Path, "http://" ++ domain ++ check.Path])) ∧
      (env.doReq ("https://" ++ domain ++ check.Path) = .buildErr →
        tryGetURLWithClient env domain check =
          ("http://" ++ domain ++ check.Path, ["http://" ++ domain ++ check.Path]))) ∧
    (¬ Matches env check ("https://" ++ domain ++ check.Path) →
      ¬ Matches env check ("http://" ++ domain ++ check.Path) →
      tryGetURLWithClient env domain check =
        ("", requested env ("https://" ++ domain ++ check.Path) ++
          requested env ("http://" ++ domain ++ check.Path))) ∧
    (∀ url, (env.doReq url = .buildErr → requested env url = []) ∧
      (env.doReq url ≠ .buildErr → requested env url = [url])) := by
  have hloop : tryGetURLWithClient env domain check =
      if attempt env check ("https://" ++ domain ++ check.Path) = true then
        ("https://" ++ domain ++ check.Path,
          requested env ("https://" ++ domain ++ check.Path))
      else if attempt env check ("http://" ++ domain ++ check.Path) = true then
        ("http://" ++ domain ++ check.Path,
          requested env ("https://" ++ domain ++ check.Path) ++
            requested env ("http://" ++ domain ++ check.Path))
      else
        ("", requested env ("https://" ++ domain ++ check.Path) ++
          requested env ("http://" ++ domain ++ check.Path)) := by
    unfold tryGetURLWithClient
    simp only [tryGetURLLoop, List.nil_append]
  refine ⟨?_, ?_, ?_, ?_, ?_⟩
  · intro hb
    rw [hloop, requested_of_built env _ hb]
    split
    · exact ⟨[], rfl⟩
    · split
      · exact ⟨_, rfl⟩
      · exact ⟨_, rfl⟩
  · intro h1
    rw [hloop, if_pos ((attempt_true_iff_matches env check _).mpr h1),
      requested_of_matches env check _ h1]
  · intro h1 h2
    have a1 : ¬ attempt env check ("https://" ++ domain ++ check.Path) = true :=
      fun h => h1 ((attempt_true_iff_matches env check _).mp h)
    have a2 := (attempt_true_iff_matches env check _).mpr h2
    constructor
    · intro hb
      rw [hloop, if_neg a1, if_pos a2, requested_of_built env _ hb,
        requested_of_matches env check _ h2]
      rfl
    · intro hb
      rw [hloop, if_neg a1, if_pos a2, requested_of_buildErr env _ hb,
        requested_of_matches env check _ h2]
      rfl
  · intro h1 h2
    have a1 : ¬ attempt env check ("https://" ++ domain ++ check.Path) = true :=
      fun h => h1 ((attempt_true_iff_matches env check _).mp h)
    have a2 : ¬ attempt env check ("http://" ++ domain ++ check.Path) = true :=
      fun h => h2 ((attempt_true_iff_matches env check _).mp h)
    rw [hloop, if_neg a1, if_neg a2]
  · intro url
    exact ⟨requested_of_buildErr env url, requested_of_built env url⟩

/-- C6 fails as stated: for the domain `a b` no request can be built for either scheme, and
`tryGetURLWithClient` returns the empty string without any request: the https URL is
not requested. -/
theorem tryGetURLWithClient_no_request :
    envSpaceInHost.doReq "https://a b/.env" = .buildErr ∧
    envSpaceInHost.doReq "http://a b/.env" = .buildErr ∧
    tryGetURLWithClient envSpaceInHost "a b"
      ⟨"/.env", "APP_KEY", "vulnerable_env", ".env", ""⟩ = ("", []) := by
  refine ⟨rfl, rfl, ?_⟩
  decide

/-- C7, as the code has it: an attempt for a URL matches if and only if a response came
back (the request was built and sent without error), its status is exactly 200, its
Content-Type contains the required substring whenever the probe names one, and its body
contains the keyword of the probe. An attempt that does not match makes the loop go on to
the remaining schemes, and to the empty result when there is none left. -/
theorem attempt_iff (env : Env) (check : VulnCheck) (url : String) :
    (attempt env check url = true ↔
      ∃ contentType body readErr, env.doReq url = .resp 200 contentType body readErr ∧
        (check.ContentType ≠ "" → stringsContains contentType check.ContentType = true) ∧
        stringsContains body check.Keyword = true) ∧
    (∀ (domain scheme : String) (rest tried : List String),
      attempt env check (scheme ++ domain ++ check.Path) = false →
      tryGetURLLoop env domain check (scheme :: rest) tried =
        tryGetURLLoop env domain check rest
          (tried ++ requested env (scheme ++ domain ++ check.Path))) ∧
    (∀ (domain : String) (tried : List String),
      tryGetURLLoop env domain check [] tried = ("", tried)) := by
  refine ⟨?_, ?_, ?_⟩
  · exact attempt_true_iff_matches env check url
  · intro domain scheme rest tried h
    simp [tryGetURLLoop, h]
  · intro domain tried
    simp [tryGetURLLoop]

/-! ## The stream handler -/

theorem admitValues_eq_admitAll (env : Env) (vals : List JsonVal) (st : State) :
    admitValues env st vals = admitAll env st (stringEntries vals) := by
  induction vals generalizing st with
  | nil => rfl
  | cons v rest ih =>
    cases v with
    | str domain =>
      simp only [admitValues, stringEntries, admitAll]
      cases admitDomain env st domain with
      | error e => rfl
      | ok st1 => exact ih st1
    | null => simpa only [admitValues, stringEntries] using ih st
    | bool b => simpa only [admitValues, stringEntries] using ih st
    | num l => simpa only [admitValues, stringEntries] using ih st
    | arr items => simpa only [admitValues, stringEntries] using ih st
    | obj fields => simpa only [admitValues, stringEntries] using ih st

/-- C9: a message that does not have the shape of a domain-discovery event is handled
without a panic and leaves the whole state, the dedup cache and the queue included, as it
was; for a message that has it, the handler does exactly what the admission path does on the
string entries of `all_domains`, in order, the other entries being skipped. -/
theorem handleMessage_filter (env : Env) (st : State) (msg : String) :
    ((¬ ∃ domains, DiscoveryShape env msg domains) → handleMessage env st msg = .ok st) ∧
    (∀ domains, DiscoveryShape env msg domains →
      handleMessage env st msg = admitAll env st (stringEntries domains)) := by
  constructor
  · intro hno
    unfold handleMessage unmarshalMap
    cases hp : env.parseJSON msg with
    | none => rfl
    | some v =>
      cases v with
      | null => rfl
      | bool b => rfl
      | num l => rfl
      | str x => rfl
      | arr items => rfl
      | obj data =>
        simp only
        cases hmt : fieldOf data "message_type" with
        | none => rfl
        | some mt =>
          cases mt with
          | null => rfl
          | bool b => rfl
          | num l => rfl
          | arr items => rfl
          | obj fields => rfl
          | str t =>
            simp only
            by_cases ht : t = "certificate_update"
            · subst ht
              rw [if_neg (fun h => h rfl)]
              cases hd : fieldOf data "data" with
              | none => rfl
              | some dv =>
                cases dv with
                | null => rfl
                | bool b => rfl
                | num l => rfl
                | str x => rfl
                | arr items => rfl
                | obj d =>
                  simp only
                  cases hl : fieldOf d "leaf_cert" with
                  | none => rfl
                  | some lv =>
                    cases lv with
                    | null => rfl
                    | bool b => rfl
                    | num l => rfl
                    | str x => rfl
                    | arr items => rfl
                    | obj leaf =>
                      simp only
                      cases ha : fieldOf leaf "all_domains" with
                      | none => rfl
                      | some av =>
                        cases av with
                        | null => rfl
                        | bool b => rfl
                        | num l => rfl
                        | str x => rfl
                        | obj fields => rfl
                        | arr domains =>
                          exact absurd ⟨domains, data, d, leaf, hp, hmt, hd, hl, ha⟩ hno
            · rw [if_pos ht]
  · rintro domains ⟨data, d, leaf, hp, hmt, hd, hl, ha⟩
    unfold handleMessage unmarshalMap
    simp only [hp, hmt, hd, hl, ha]
    rw [if_neg (fun h => h rfl)]
    exact admitValues_eq_admitAll env domains st

/-! ## Evaluations -/

/-- C7 fails as stated: a response with status 203, a success status, no content-type
requirement on the probe and the keyword in the body is not a match. -/
theorem attempt_rejects_status_203 :
    envNonAuthoritative.doReq "https://a.example/.env" =
      .resp 203 "text/plain" "APP_KEY=secret" false ∧
    isSuccessStatus 203 = true ∧
    (⟨"/.env", "APP_KEY", "vulnerable_env", ".env", ""⟩ : VulnCheck).ContentType = "" ∧
    stringsContains "APP_KEY=secret" "APP_KEY" = true ∧
    attempt envNonAuthoritative ⟨"/.env", "APP_KEY", "vulnerable_env", ".env", ""⟩
      "https://a.example/.env" = false ∧
    tryGetURLWithClient envNonAuthoritative "a.example"
      ⟨"/.env", "APP_KEY", "vulnerable_env", ".env", ""⟩ =
      ("", ["https://a.example/.env", "http://a.example/.env"]) := by
  refine ⟨rfl, ?_, rfl, ?_, ?_, ?_⟩ <;> decide

/-- C4: once `close(tasks)` has run, the admission of a domain that is not in the cache
panics with a send on a closed channel, on each of the three paths: the seed loop, the
stream handler and the re-admission of a subdomain by a worker. -/
theorem admission_after_close_panics :
    panicOf (shutdown initState >>= fun st => trySend st.tasks "new.example") =
      some "send on closed channel" ∧
    panicOf (shutdown initState >>= fun st => seedAdmit envOneSub st ["new.example"]) =
      some "send on closed channel" ∧
    panicOf (shutdown initState >>= fun st => handleMessage envOneSub st "event") =
      some "send on closed channel" ∧
    panicOf (shutdown initState >>= fun st => processDomain envOneSub st "d1.example") =
      some "send on closed channel" := by
  refine ⟨?_, ?_, ?_, ?_⟩ <;> decide

/-- C5: with five domains queued when the channel is closed, and an expansion provider that
answers a subdomain not yet in the cache for the first of them, the worker loop panics on
its first domain: nothing is scanned. With the channel left open the same run scans the
five domains and the subdomain. -/
theorem drain_panics_on_new_subdomain :
    panicOf (runDrain envOneSub fivePending 10) = some "send on closed channel" ∧
    (runPipeline envOneSub fivePending 10).toOption.map
      (fun r => (r.1.scannedCount, r.1.tasks.buf, r.2)) = some (6, [], LoopEnd.blocked) := by
  constructor <;> decide

/-- C8: from the initial state with seed `a.example`, an expansion provider answering
`s1.a.example` and `s2.a.example` for `a.example` and nothing for any other domain, and no
probe matching, the run reaches an empty open queue with 2 discovered subdomains, 3 scanned
domains, no match recorded, and a cache whose keys are exactly the three domains. -/
theorem end_to_end :
    ∃ st, runPipeline envTwoSubs ["a.example"] 10 = .ok (st, .blocked) ∧
      st.tasks.buf = [] ∧ st.subCount = 2 ∧ st.scannedCount = 3 ∧ st.vulnLines = [] ∧
      WF st.seen.data ∧
      ∀ k, mapLookup st.seen.data k ≠ none ↔
        (k = "a.example" ∨ k = "s1.a.example" ∨ k = "s2.a.example") := by
  refine ⟨{ seen := ⟨[("s2.a.example", 1002), ("s1.a.example", 1001), ("a.example", 1000)]⟩
            tasks := ⟨[], tasksCap, false⟩
            scannedCount := 3
            subCount := 2
            counts := [("/.env", 0), ("/.git/config", 0), ("/phpinfo.php", 0)]
            domainLines := ["a.example\n", "s1.a.example\n", "s2.a.example\n"]
            vulnLines := []
            tick := 3 }, by rfl, rfl, rfl, rfl, rfl, by decide, ?_⟩
  intro k
  simp only [mapLookup]
  by_cases h1 : "s2.a.example" = k
  · subst h1; simp
  · by_cases h2 : "s1.a.example" = k
    · subst h2; simp
    · by_cases h3 : "a.example" = k
      · subst h3; simp
      · simp [h1, h2, h3, Ne.symm h1, Ne.symm h2, Ne.symm h3]

/-! ## Draining a closed queue -/

/-- The admission of a domain that the cache holds only counts one more clock reading. -/
theorem admitDomain_present (env : Env) (st : State) (d : String)
    (h : mapLookup st.seen.data d ≠ none) :
    admitDomain env st d = .ok { st with tick := st.tick + 1 } := by
  obtain ⟨ts, hts⟩ := Option.ne_none_iff_exists'.mp h
  have h1 : st.seen.LoadOrStore d (env.clock st.tick) = (st.seen, true) := by
    unfold SafeSeen.LoadOrStore
    rw [hts]
  unfold admitDomain
  simp only [h1, if_true]

theorem admitAll_present (env : Env) (subs : List String) (st : State)
    (h : ∀ d ∈ subs, mapLookup st.seen.data d ≠ none) :
    admitAll env st subs = .ok { st with tick := st.tick + subs.length } := by
  induction subs generalizing st with
  | nil => rfl
  | cons d rest ih =>
    simp only [admitAll]
    rw [admitDomain_present env st d (h d (List.mem_cons_self _ _))]
    simp only
    rw [ih]
    · simp only [List.length_cons]
      congr 2
      omega
    · intro d' hd'
      exact h d' (List.mem_cons_of_mem _ hd')

/-- The probes of a worker touch nothing but the match counters and the probe sinks, and
do not panic when every probe has its counter. -/
theorem runChecks_frame (env : Env) (domain : String) (cs : List VulnCheck) (st : State)
    (h : ∀ c ∈ cs, mapLookup st.counts c.Path ≠ none) :
    ∃ st1, runChecks env domain st cs = .ok st1 ∧ st1.seen = st.seen ∧
      st1.tasks = st.tasks ∧ st1.scannedCount = st.scannedCount ∧
      ∀ p, mapLookup st.counts p ≠ none → mapLookup st1.counts p ≠ none := by
  induction cs generalizing st with
  | nil => exact ⟨st, rfl, rfl, rfl, rfl, fun _ hp => hp⟩
  | cons check rest ih =>
    simp only [runChecks]
    by_cases hurl : (tryGetURLWithClient env domain check).1 ≠ ""
    · rw [if_pos hurl]
      obtain ⟨n, hn⟩ := Option.ne_none_iff_exists'.mp (h check (List.mem_cons_self _ _))
      simp only [hn]
      have hkeep : ∀ p, mapLookup st.counts p ≠ none →
          mapLookup (mapStore st.counts check.Path (n + 1)) p ≠ none := by
        intro p hp
        rw [mapLookup_mapStore]
        split
        · simp
        · exact hp
      obtain ⟨st1, hrun, hseen, htasks, hscan, hcounts⟩ :=
        ih { st with counts := mapStore st.counts check.Path (n + 1)
                     vulnLines := st.vulnLines ++
                       [(check.Path, (tryGetURLWithClient env domain check).1 ++ "\n")] }
          (fun c hc => hkeep c.Path (h c (List.mem_cons_of_mem _ hc)))
      exact ⟨st1, hrun, hseen, htasks, hscan, fun p hp => hcounts p (hkeep p hp)⟩
    · rw [if_neg hurl]
      exact ih st (fun c hc => h c (List.mem_cons_of_mem _ hc))

/-- Draining without new work: when the channel is closed with `k` domains buffered, every
probe has its counter, and the expansion of each buffered domain returns only domains that
the cache already holds, the worker loop scans the `k` domains and exits on the empty
channel, with the cache as it was. -/
theorem drain_without_new_subdomains (env : Env) (ds : List String) (st : State)
    (hbuf : st.tasks.buf = ds) (hclosed : st.tasks.closed = true)
    (hcounts : ∀ c ∈ checks, mapLookup st.counts c.Path ≠ none)
    (hquiet : ∀ d ∈ ds, ∀ sc, ∃ subs sc1, fetchSubdomains env d sc = .ok (subs, sc1) ∧
      ∀ sd ∈ subs, mapLookup st.seen.data sd ≠ none) :
    ∃ st1, workerLoop env (ds.length + 1) st = .ok (st1, .exited) ∧
      st1.scannedCount = st.scannedCount + ds.length ∧ st1.tasks.buf = [] ∧
      st1.seen = st.seen := by
  induction ds generalizing st with
  | nil =>
    refine ⟨st, ?_, by simp, hbuf, rfl⟩
    simp [workerLoop, recv, hbuf, hclosed]
  | cons d rest ih =>
    obtain ⟨subs, sc1, hfetch, hsubs⟩ := hquiet d (List.mem_cons_self _ _) st.subCount
    obtain ⟨st3, hrun, hseen, htasks, hscan, hkeep⟩ :=
      runChecks_frame env d checks
        { st with tasks := { st.tasks with buf := rest }
                  domainLines := st.domainLines ++ [d ++ "\n"]
                  subCount := sc1
                  tick := st.tick + subs.length }
        hcounts
    have hproc : processDomain env { st with tasks := { st.tasks with buf := rest } } d =
        .ok { st3 with scannedCount := st3.scannedCount + 1 } := by
      have hall := admitAll_present env subs
        { st with tasks := { st.tasks with buf := rest }
                  domainLines := st.domainLines ++ [d ++ "\n"]
                  subCount := sc1 } hsubs
      unfold processDomain
      simp only [hfetch, hall, hrun]
    obtain ⟨st4, hloop, hscan4, hbuf4, hseen4⟩ :=
      ih { st3 with scannedCount := st3.scannedCount + 1 }
        (by simp only [htasks]) (by simp only [htasks]; exact hclosed)
        (fun c hc => hkeep c.Path (hcounts c hc))
        (fun d' hd' sc => by
          obtain ⟨subs', sc', hf, hs⟩ := hquiet d' (List.mem_cons_of_mem _ hd') sc
          exact ⟨subs', sc', hf, fun sd hsd => by simpa only [hseen] using hs sd hsd⟩)
    refine ⟨st4, ?_, ?_, hbuf4, ?_⟩
    · show workerLoop env (rest.length + 1 + 1) st = _
      rw [workerLoop]
      simp only [recv, hbuf, hproc]
      exact hloop
    · rw [hscan4]
      simp only [hscan, List.length_cons]
      push_cast
      ring
    · rw [hseen4]
      exact hseen

theorem drain_without_new_subdomains_witness :
    ∃ st1, workerLoop envOneSub (["d2.example", "d3.example"].length + 1)
        { initState with tasks := ⟨["d2.example", "d3.example"], tasksCap, true⟩ } =
        .ok (st1, .exited) ∧
      st1.scannedCount = 0 + (["d2.example", "d3.example"].length : Int) ∧
      st1.tasks.buf = [] ∧ st1.seen = NewSafeSeen :=
  drain_without_new_subdomains envOneSub ["d2.example", "d3.example"]
    { initState with tasks := ⟨["d2.example", "d3.example"], tasksCap, true⟩ } rfl rfl
    (by decide)
    (by
      intro d hd sc
      refine ⟨[], sc, ?_, by simp⟩
      simp only [List.mem_cons, List.mem_singleton, List.not_mem_nil, or_false] at hd
      rcases hd with h | h <;> subst h <;> rfl)

end Scan
